import Mathlib

/-!
# Verification of the AI VR Tour Guide RAG core

A shallow embedding of the retrieval-augmented narration pipeline of the
`ai-vr-tour-guide` repository, together with the database-schema fragments and
the tenant guard that live in the TypeScript/SQL sources.

The repository ships no executable retrieval algorithm: the RAG contract
(chunker, indexer, hybrid retriever, reranker, citation assembler, narration
session) exists only as a prose design, so those components are modelled from
the spec, as marked on each definition.  The database schema
(`content.document_embeddings`, `content.documents`, the `updated_at`
triggers) and the NestJS `TenantGuard` are embedded directly from their
source files.

Numeric scores are modelled as rationals (`ℚ`); the irrational parts of
scoring (logarithmic idf, cosine similarity with square roots, embedding
providers, the cross-encoder, approximate-nearest-neighbour search) are
external collaborators in the source design and are passed in as function
parameters.  Text is modelled as `List Char`.
-/

namespace VRTour


/-- Modelled from the spec: the error taxonomy of §7 (`EmptyDocumentError`,
`EmptyCorpusError`, `RerankUnavailableError`, `InsufficientEvidenceError`). -/
inductive RagError where
  | emptyDocument
  | emptyCorpus
  | rerankUnavailable
  | insufficientEvidence
  deriving Repr, DecidableEq

/-- Modelled from the spec: a `Document` — an ingested source unit with unique
id, site/corpus id, title, raw text, content kind and license tag (§3). -/
structure Document where
  id : Nat
  siteId : Nat
  title : List Char
  text : List Char
  contentKind : Nat
  license : List Char
  deriving Repr, DecidableEq

/-- Modelled from the spec: a `Passage` — a contiguous slice of a document's
text, with 0-based chunk index and [start,end) character offsets into the
parent text (§3). -/
structure Passage where
  id : Nat
  docId : Nat
  chunkIndex : Nat
  startOffset : Nat
  endOffset : Nat
  text : List Char
  deriving Repr, DecidableEq

/-! ## Chunker (§4.1), modelled from the spec -/

/-- Modelled from the spec: sentence/paragraph break characters preferred as
chunk boundaries (§4.1). -/
def isBreakChar (c : Char) : Bool :=
  c = '.' || c = '!' || c = '?' || c = '\n'

/-- The [start,end) slice of a character list. -/
def sliceText (text : List Char) (s e : Nat) : List Char :=
  (text.drop s).take (e - s)

/-- Modelled from the spec: find the last sentence break inside the slack
window `[lo, hi)`; returns the offset one past the break character (§4.1). -/
def findBreak (text : List Char) (lo hi : Nat) : Option Nat :=
  (((List.range' lo (hi - lo)).filter
      (fun i => isBreakChar (text.getD i ' '))).map (fun i => i + 1)).getLast?

/-- Modelled from the spec: the end offset of the chunk starting at `start` —
a sentence break within the slack window around `start + target` if one
exists, otherwise a hard cut at `start + target`; clamped into
`(start, text.length]` (§4.1). -/
def chunkEnd (text : List Char) (target slack start : Nat) : Nat :=
  let cand := (findBreak text (start + target - slack)
      (min (start + target + slack) text.length)).getD (start + target)
  max (min cand text.length) (start + 1)

/-- Modelled from the spec: the chunking loop — emit the passage
`[start, chunkEnd)`, then restart `overlap` characters before its end, until
the end of the document is reached (§4.1).  Passage ids are allocated
sequentially from `firstId`. -/
def chunkFrom (doc : Document) (firstId target overlap slack : Nat)
    (start idx : Nat) : List Passage :=
  if _h : start < doc.text.length then
    let e := chunkEnd doc.text target slack start
    if he : e < doc.text.length then
      ⟨firstId + idx, doc.id, idx, start, e, sliceText doc.text start e⟩ ::
        chunkFrom doc firstId target overlap slack (max (e - overlap) (start + 1)) (idx + 1)
    else
      [⟨firstId + idx, doc.id, idx, start, doc.text.length,
        sliceText doc.text start doc.text.length⟩]
  else []
termination_by doc.text.length - start
decreasing_by
  have h1 : start + 1 ≤ max (chunkEnd doc.text target slack start - overlap) (start + 1) :=
    le_max_right _ _
  omega

/-- Modelled from the spec: `chunk(document, target_size, overlap)` — fails
with `EmptyDocumentError` on empty/whitespace-only text, otherwise splits the
text into overlapping passages (§4.1).  `slack` is the boundary-preference
window and `firstId` the id of the first produced passage. -/
def chunk (doc : Document) (firstId target overlap slack : Nat) :
    Except RagError (List Passage) :=
  if doc.text.all Char.isWhitespace then .error .emptyDocument
  else .ok (chunkFrom doc firstId target overlap slack 0 0)

/-- Modelled from the spec: overlap-aware concatenation — each passage after
the first contributes only its part beyond the previous passage's start, so
that the concatenation is the "union of [start,end) ranges minus overlaps"
(§8, chunk coverage). -/
def reconstruct : List Passage → List Char
  | [] => []
  | [p] => p.text
  | p :: q :: rest => p.text.take (q.startOffset - p.startOffset) ++ reconstruct (q :: rest)

/-- The per-pair adjacency contract of consecutive passages: strictly
increasing starts, no gap (the next start is at most the previous end), and
overlap bounded by the configured `overlap`. -/
def adjacentOk (overlap : Nat) (p q : Passage) : Prop :=
  p.startOffset < q.startOffset ∧ q.startOffset ≤ p.endOffset ∧
    p.endOffset ≤ q.startOffset + overlap

/-! ## Embedding Indexer (§4.2), modelled from the spec -/

/-- Modelled from the spec: a small stopword list used by the lexical
tokenizer (§4.2). -/
def stopwords : List (List Char) :=
  [['t','h','e'], ['a'], ['o','f'], ['a','n','d'], ['t','o'], ['i','n'], ['i','s']]

/-- Modelled from the spec: tokenization — lowercase, strip punctuation
(split on non-alphanumeric characters), drop stopwords (§4.2). -/
def tokenize (s : List Char) : List (List Char) :=
  ((s.map Char.toLower).splitOnP (fun c => !c.isAlphanum)).filter
    (fun w => !w.isEmpty && !stopwords.contains w)

/-- Modelled from the spec: the index structures owned by the Embedding
Indexer — the passage arena (storage keyed by id), the vector index of
(passage id, embedding) pairs, and the lexical postings term → list of
(passage id, term frequency) (§3, §4.2, §9).  Document frequency per term and
the total passage count of BM25 are derived from these structures. -/
structure IndexState where
  arena : List Passage
  vecIndex : List (Nat × List ℚ)
  postings : List (List Char × List (Nat × Nat))
  deriving Repr, DecidableEq

/-- Modelled from the spec: append one (passage id, term frequency) posting
under term `t`, creating the term entry if absent (§4.2). -/
def addPosting (t : List Char) (pid tf : Nat) :
    List (List Char × List (Nat × Nat)) → List (List Char × List (Nat × Nat))
  | [] => [(t, [(pid, tf)])]
  | (u, l) :: rest =>
    if u = t then (u, l ++ [(pid, tf)]) :: rest else (u, l) :: addPosting t pid tf rest

/-- Modelled from the spec: index a single passage — store it in the arena,
insert its (id, embedding) pair into the vector index, and add one posting per
distinct term of its text (§4.2).  The embedding provider is an external
collaborator. -/
def indexPassage (embed : List Char → List ℚ) (p : Passage) (s : IndexState) : IndexState :=
  { arena := s.arena ++ [p],
    vecIndex := s.vecIndex ++ [(p.id, embed p.text)],
    postings := (tokenize p.text).dedup.foldl
      (fun ps t => addPosting t p.id ((tokenize p.text).count t) ps) s.postings }

/-- Modelled from the spec: `index(passages)` — index each passage in order
(§4.2). -/
def indexPassages (embed : List Char → List ℚ) (ps : List Passage) (s : IndexState) :
    IndexState :=
  ps.foldl (fun st p => indexPassage embed p st) s

/-- Find the arena passage with the given id. -/
def lookupPassage (arena : List Passage) (pid : Nat) : Option Passage :=
  arena.find? (fun p => p.id == pid)

/-- The parent document of the passage with the given id, per the arena. -/
def lookupDoc (arena : List Passage) (pid : Nat) : Option Nat :=
  (lookupPassage arena pid).map (fun p => p.docId)

/-- Modelled from the spec: `remove(document_id)` — delete every vector-index
entry and every lexical posting whose passage belongs to the given document
(§4.2). -/
def remove (docId : Nat) (s : IndexState) : IndexState :=
  { arena := s.arena,
    vecIndex := s.vecIndex.filter (fun e => lookupDoc s.arena e.1 != some docId),
    postings := s.postings.map
      (fun tp => (tp.1, tp.2.filter (fun e => lookupDoc s.arena e.1 != some docId))) }

/-! ## Hybrid Retriever (§4.3), modelled from the spec -/

/-- Modelled from the spec: a transient retrieval candidate — passage,
lexical score, vector score, fused score (§3). -/
structure Candidate where
  passage : Passage
  lexScore : ℚ
  vecScore : ℚ
  fused : ℚ
  deriving Repr, DecidableEq

/-- Minimum of a rational list (0 for the empty list). -/
def minOf : List ℚ → ℚ
  | [] => 0
  | [x] => x
  | x :: y :: xs => min x (minOf (y :: xs))

/-- Maximum of a rational list (0 for the empty list). -/
def maxOf : List ℚ → ℚ
  | [] => 0
  | [x] => x
  | x :: y :: xs => max x (maxOf (y :: xs))

/-- Modelled from the spec: min-max normalization of a raw score over the
candidate pool's score list, mapping into [0,1]; a constant score list
normalizes to 0 (§4.3). -/
def minmaxNorm (vals : List ℚ) (v : ℚ) : ℚ :=
  if maxOf vals = minOf vals then 0 else (v - minOf vals) / (maxOf vals - minOf vals)

/-- The raw score of passage id `pid` on one axis: its score in the axis's
candidate list, or 0 when the passage was found only on the other axis
(§4.3). -/
def lookupScore (l : List (Passage × ℚ)) (pid : Nat) : ℚ :=
  ((l.find? (fun e => e.1.id == pid)).map (fun e => e.2)).getD 0

/-- Worker of `dedupById`: keep passages whose id was not yet seen. -/
def dedupByIdGo : List Nat → List Passage → List Passage
  | _, [] => []
  | seen, p :: rest =>
    if p.id ∈ seen then dedupByIdGo seen rest
    else p :: dedupByIdGo (p.id :: seen) rest

/-- Deduplicate passages by passage id, keeping first occurrences (§4.3). -/
def dedupById (l : List Passage) : List Passage := dedupByIdGo [] l

/-- Modelled from the spec: the deduplicated candidate pool — every passage
appearing on the lexical or the vector axis, once (§4.3). -/
def fusePool (lex vec : List (Passage × ℚ)) : List Passage :=
  dedupById (lex.map Prod.fst ++ vec.map Prod.fst)

/-- Modelled from the spec: the fused ranking order — fused score descending,
ties broken by passage chunk index ascending (§4.3). -/
def fusedLE (a b : Candidate) : Prop :=
  b.fused < a.fused ∨ (a.fused = b.fused ∧ a.passage.chunkIndex ≤ b.passage.chunkIndex)

instance : DecidableRel fusedLE := fun a b => by
  unfold fusedLE
  exact instDecidableOr

instance : IsTotal Candidate fusedLE where
  total a b := by
    unfold fusedLE
    rcases lt_trichotomy a.fused b.fused with h | h | h
    · exact Or.inr (Or.inl h)
    · rcases Nat.le_total a.passage.chunkIndex b.passage.chunkIndex with h2 | h2
      · exact Or.inl (Or.inr ⟨h, h2⟩)
      · exact Or.inr (Or.inr ⟨h.symm, h2⟩)
    · exact Or.inl (Or.inl h)

instance : IsTrans Candidate fusedLE where
  trans a b c hab hbc := by
    unfold fusedLE at *
    rcases hab with h1 | ⟨h1, h1'⟩
    · rcases hbc with h2 | ⟨h2, h2'⟩
      · exact Or.inl (lt_trans h2 h1)
      · exact Or.inl (h2 ▸ h1)
    · rcases hbc with h2 | ⟨h2, h2'⟩
      · exact Or.inl (h1 ▸ h2)
      · exact Or.inr ⟨h1.trans h2, le_trans h1' h2'⟩

/-- Modelled from the spec: the retrieval candidate built for one pooled
passage — both raw subscores (0 for an axis the passage was not found on) and
the fused score `α·lexical_norm + (1-α)·vector_norm`, the normalizations
taken min-max over the pool (§4.3). -/
def mkCandidate (α : ℚ) (lex vec : List (Passage × ℚ)) (p : Passage) : Candidate :=
  { passage := p,
    lexScore := lookupScore lex p.id,
    vecScore := lookupScore vec p.id,
    fused := α * minmaxNorm ((fusePool lex vec).map (fun q => lookupScore lex q.id))
        (lookupScore lex p.id)
      + (1 - α) * minmaxNorm ((fusePool lex vec).map (fun q => lookupScore vec q.id))
        (lookupScore vec p.id) }

/-- Modelled from the spec: score fusion — deduplicate the two axes by
passage id, min-max normalize each axis's raw scores independently over the
pool, combine as `α·lexical_norm + (1-α)·vector_norm`, and sort by fused
score descending with ties broken by chunk index ascending (§4.3). -/
def fuse (α : ℚ) (lex vec : List (Passage × ℚ)) : List Candidate :=
  List.insertionSort fusedLE ((fusePool lex vec).map (mkCandidate α lex vec))

/-- The posting list of a term (empty when the term is unknown). -/
def lookupPostings (postings : List (List Char × List (Nat × Nat))) (t : List Char) :
    List (Nat × Nat) :=
  ((postings.find? (fun tp => tp.1 == t)).map (fun tp => tp.2)).getD []

/-- Modelled from the spec: average indexed passage length, used by BM25
length normalization (§4.2, §4.3). -/
def avgPassageLen (s : IndexState) : ℚ :=
  if s.arena.isEmpty then 0
  else ((s.arena.map (fun p => p.text.length)).sum : ℚ) / (s.arena.length : ℚ)

/-- Modelled from the spec: BM25 lexical scoring with saturation `k1` and
length normalization `b`; term frequency and document frequency come from the
postings, and the logarithmic idf is supplied as an external numeric
collaborator (§4.3). -/
def bm25Score (idf : Nat → Nat → ℚ) (k1 b : ℚ) (nPassages : Nat) (avgLen : ℚ)
    (postings : List (List Char × List (Nat × Nat))) (qTokens : List (List Char))
    (pid plen : Nat) : ℚ :=
  (qTokens.map (fun t =>
    let plist := lookupPostings postings t
    let tf : ℚ := ((((plist.find? (fun e => e.1 == pid)).map (fun e => e.2)).getD 0 : Nat) : ℚ)
    idf plist.length nPassages * (tf * (k1 + 1))
      / (tf + k1 * (1 - b + b * ((plen : ℚ) / avgLen))))).sum

/-- Modelled from the spec: a `Citation` — passage id, parent document id,
source document title, bounded snippet, document license tag (§3). -/
structure Citation where
  passageId : Nat
  docId : Nat
  title : List Char
  snippet : List Char
  license : List Char
  deriving Repr, DecidableEq

/-- Modelled from the spec: the external collaborators of §6 — embedding
provider, logarithmic idf, cosine similarity, approximate-nearest-neighbour
search over the scoped vector index, cross-encoder scorer (which may fail per
candidate), and the LLM narration generator. -/
structure Collaborators where
  embed : List Char → List ℚ
  idf : Nat → Nat → ℚ
  sim : List ℚ → List ℚ → ℚ
  ann : List ℚ → List (Nat × List ℚ) → List Nat
  crossScore : List Char → List Char → Option ℚ
  generate : List Char → List Citation → List Char

/-- Modelled from the spec: the retriever's tunable constants — fusion weight
α, BM25 constants k1 and b, and the candidate pool size (§4.3). -/
structure RetrievalConfig where
  alpha : ℚ
  k1 : ℚ
  b : ℚ
  poolSize : Nat
  deriving Repr, DecidableEq

/-- The passages of the arena that the corpus scope (a document-id filter)
matches (§4.3). -/
def scopedPassages (scope : List Nat) (s : IndexState) : List Passage :=
  s.arena.filter (fun p => scope.contains p.docId)

/-- The vector-index entries whose passage belongs to a scoped document
(§4.3). -/
def scopedVectors (scope : List Nat) (s : IndexState) : List (Nat × List ℚ) :=
  s.vecIndex.filter (fun e => ((lookupDoc s.arena e.1).map scope.contains).getD false)

/-- Modelled from the spec: the lexical candidates of a query — the scoped
passages holding a posting for at least one query term, with their BM25
scores (§4.3). -/
def lexCandidates (cfg : RetrievalConfig) (idf : Nat → Nat → ℚ) (scope : List Nat)
    (qTokens : List (List Char)) (s : IndexState) : List (Passage × ℚ) :=
  (((qTokens.map (fun t => (lookupPostings s.postings t).map Prod.fst)).flatten).dedup).filterMap
    (fun pid => (lookupPassage s.arena pid).bind (fun p =>
      if scope.contains p.docId then
        some (p, bm25Score idf cfg.k1 cfg.b s.arena.length (avgPassageLen s)
          s.postings qTokens pid p.text.length)
      else none))

/-- The stored embedding of a vector-index entry. -/
def vecOf (sv : List (Nat × List ℚ)) (pid : Nat) : List ℚ :=
  ((sv.find? (fun e => e.1 == pid)).map (fun e => e.2)).getD []

/-- Modelled from the spec: the vector candidates of a query — the passages
the ANN collaborator returns for the query embedding, restricted to the
scoped vector index, with their similarity scores (§4.3). -/
def vecCandidates (collab : Collaborators) (scope : List Nat) (qVec : List ℚ)
    (s : IndexState) : List (Passage × ℚ) :=
  let sv := scopedVectors scope s
  ((collab.ann qVec sv).dedup).filterMap (fun pid =>
    if sv.any (fun e => e.1 == pid) then
      (lookupPassage s.arena pid).map (fun p => (p, collab.sim qVec (vecOf sv pid)))
    else none)

/-- Modelled from the spec: `retrieve(query_text, corpus_scope)` — fails with
`EmptyCorpusError` exactly when the scope matches zero passages, otherwise
returns the fused, deduplicated, sorted candidate pool truncated to the pool
size (§4.3). -/
def retrieveS (collab : Collaborators) (cfg : RetrievalConfig) (scope : List Nat)
    (queryText : List Char) (s : IndexState) : Except RagError (List Candidate) :=
  if (scopedPassages scope s).isEmpty then .error .emptyCorpus
  else
    .ok ((fuse cfg.alpha (lexCandidates cfg collab.idf scope (tokenize queryText) s)
      (vecCandidates collab scope (collab.embed queryText) s)).take cfg.poolSize)

/-! ## Reranker (§4.4), modelled from the spec -/

/-- Modelled from the spec: a per-candidate rerank score — a failed scorer
call is treated as score `⊥` (minus infinity), sorted last (§4.4). -/
def toScore (o : Option ℚ) : WithBot ℚ :=
  o.elim ⊥ (fun q => (q : WithBot ℚ))

/-- Modelled from the spec: a `RankedResult` — candidate, rerank score, final
rank position (§3). -/
structure RankedResult where
  cand : Candidate
  score : WithBot ℚ
  rankPos : Nat
  deriving Repr, DecidableEq

/-- Modelled from the spec: the rerank order — rerank score descending, ties
broken by the incoming fused score, then by chunk index (§4.4). -/
def rerankLE (a b : Candidate × WithBot ℚ) : Prop :=
  b.2 < a.2 ∨ (a.2 = b.2 ∧ fusedLE a.1 b.1)

instance : DecidableRel rerankLE := fun a b => by
  unfold rerankLE
  exact instDecidableOr

instance : IsTotal (Candidate × WithBot ℚ) rerankLE where
  total a b := by
    unfold rerankLE
    rcases lt_trichotomy a.2 b.2 with h | h | h
    · exact Or.inr (Or.inl h)
    · rcases IsTotal.total (r := fusedLE) a.1 b.1 with h2 | h2
      · exact Or.inl (Or.inr ⟨h, h2⟩)
      · exact Or.inr (Or.inr ⟨h.symm, h2⟩)
    · exact Or.inl (Or.inl h)

instance : IsTrans (Candidate × WithBot ℚ) rerankLE where
  trans a b c hab hbc := by
    unfold rerankLE at *
    rcases hab with h1 | ⟨h1, h1'⟩
    · rcases hbc with h2 | ⟨h2, h2'⟩
      · exact Or.inl (lt_trans h2 h1)
      · exact Or.inl (h2 ▸ h1)
    · rcases hbc with h2 | ⟨h2, h2'⟩
      · exact Or.inl (h1 ▸ h2)
      · exact Or.inr ⟨h1.trans h2, IsTrans.trans (r := fusedLE) _ _ _ h1' h2'⟩

/-- Attach 0-based final rank positions to a sorted scored list. -/
def attachRanks : Nat → List (Candidate × WithBot ℚ) → List RankedResult
  | _, [] => []
  | n, e :: rest => ⟨e.1, e.2, n⟩ :: attachRanks (n + 1) rest

/-- Modelled from the spec: `rerank(query, candidates, top_k)` — score every
candidate with the external cross-encoder, treat per-candidate failures as
minus infinity, sort by the rerank order and keep the top `top_k`; fails with
`RerankUnavailableError` exactly when every candidate's score fails and the
candidate list is nonempty (§4.4). -/
def rerank (scorer : Candidate → Option ℚ) (cands : List Candidate) (topK : Nat) :
    Except RagError (List RankedResult) :=
  if (cands.all (fun c => (scorer c).isNone)) && !cands.isEmpty then
    .error .rerankUnavailable
  else
    .ok (attachRanks 0
      ((List.insertionSort rerankLE (cands.map (fun c => (c, toScore (scorer c))))).take topK))

/-- Modelled from the spec: the fused-order fallback — when reranking is
unavailable the pipeline uses the fused retrieval order directly (§4.4, §7);
fallback results carry no rerank score. -/
def fallbackRanked (cands : List Candidate) (topK : Nat) : List RankedResult :=
  attachRanks 0 ((cands.take topK).map (fun c => (c, (⊥ : WithBot ℚ))))

/-- Modelled from the spec: the caller-side recovery policy — use the rerank
result when the call succeeds, and fall back to fused retrieval order when it
fails with `RerankUnavailableError` (§4.4, §7). -/
def rankedOrFallback (scorer : Candidate → Option ℚ) (cands : List Candidate)
    (topK : Nat) : List RankedResult :=
  match rerank scorer cands topK with
  | .error _ => fallbackRanked cands topK
  | .ok rs => rs

/-! ## Citation Assembler (§4.5), modelled from the spec -/

/-- Modelled from the spec: truncate a snippet to at most `maxLen`
characters, backing up to a word boundary so truncation never cuts mid-word
(§4.5). -/
def truncateSnippet (maxLen : Nat) (s : List Char) : List Char :=
  if s.length ≤ maxLen then s
  else ((s.take maxLen).reverse.dropWhile (fun c => !c.isWhitespace)).reverse

/-- Modelled from the spec: build one citation per retained ranked result,
fetching the parent document's metadata; results whose parent document is
unknown produce no citation (§4.5). -/
def buildCitations (docs : List Document) (maxSnippetLen : Nat)
    (ranked : List RankedResult) : List Citation :=
  ranked.filterMap (fun r =>
    (docs.find? (fun d => d.id == r.cand.passage.docId)).map (fun d =>
      { passageId := r.cand.passage.id, docId := d.id, title := d.title,
        snippet := truncateSnippet maxSnippetLen r.cand.passage.text,
        license := d.license }))

/-- Worker of `dedupByDoc`: keep citations whose document was not yet seen. -/
def dedupByDocGo : List Nat → List Citation → List Citation
  | _, [] => []
  | seen, c :: rest =>
    if c.docId ∈ seen then dedupByDocGo seen rest
    else c :: dedupByDocGo (c.docId :: seen) rest

/-- Modelled from the spec: deduplicate citations by parent document id,
keeping at most one citation per source document (§4.5). -/
def dedupByDoc (l : List Citation) : List Citation := dedupByDocGo [] l

/-- Modelled from the spec: `assemble(ranked, min_citations, max_snippet_len)`
— build citations, deduplicate by parent document (unless disabled), and fail
with `InsufficientEvidenceError` when the resulting set falls below the
citation floor (§4.5). -/
def assemble (docs : List Document) (minCitations maxSnippetLen : Nat)
    (dedupEnabled : Bool) (ranked : List RankedResult) : Except RagError (List Citation) :=
  let cites :=
    if dedupEnabled then dedupByDoc (buildCitations docs maxSnippetLen ranked)
    else buildCitations docs maxSnippetLen ranked
  if minCitations ≤ cites.length then .ok cites else .error .insufficientEvidence

/-! ## Narration Session (§4.6), modelled from the spec -/

/-- Modelled from the spec: the per-request state machine
`Pending → Retrieving → Reranking → CitationCheck → Generating → Done`, with
`Failed` reachable from any state (§4.6). -/
inductive Stage where
  | pending
  | retrieving
  | reranking
  | citationCheck
  | generating
  | done
  | failed
  deriving Repr, DecidableEq

/-- Modelled from the spec: the narration session's configuration — retrieval
constants, final top-K, citation floor, snippet bound, and whether citations
are deduplicated by parent document (§4.5, §4.6). -/
structure SessionConfig where
  retrieval : RetrievalConfig
  topK : Nat
  minCitations : Nat
  maxSnippetLen : Nat
  dedupByDocument : Bool
  deriving Repr, DecidableEq

/-- Modelled from the spec: a `NarrationRequest` — tour/POI id, locale, and
the free-text question or topic (§3). -/
structure NarrationRequest where
  tourId : Nat
  poiId : Nat
  locale : List Char
  question : List Char
  deriving Repr, DecidableEq

/-- Modelled from the spec: a `NarrationResponse` — narration text and the
ordered citation list (§3). -/
structure NarrationResponse where
  text : List Char
  citations : List Citation
  deriving Repr, DecidableEq

/-- Modelled from the spec: `answer(request)` — retrieve, rerank (falling
back to fused order on `RerankUnavailableError`), assemble citations, then
generate; returns the typed failure immediately on `EmptyCorpusError` or
`InsufficientEvidenceError`.  The second component records the traversed
states of the request state machine (§4.6). -/
def answer (collab : Collaborators) (cfg : SessionConfig) (docs : List Document)
    (scope : List Nat) (s : IndexState) (req : NarrationRequest) :
    Except RagError NarrationResponse × List Stage :=
  match retrieveS collab cfg.retrieval scope req.question s with
  | .error e => (.error e, [.pending, .retrieving, .failed])
  | .ok cands =>
    let ranked := rankedOrFallback
      (fun c => collab.crossScore req.question c.passage.text) cands cfg.topK
    match assemble docs cfg.minCitations cfg.maxSnippetLen cfg.dedupByDocument ranked with
    | .error e => (.error e, [.pending, .retrieving, .reranking, .citationCheck, .failed])
    | .ok cites =>
      (.ok ⟨collab.generate req.question cites, cites⟩,
        [.pending, .retrieving, .reranking, .citationCheck, .generating, .done])

/-! ## TenantGuard, embedded from the NestJS guard source -/

/-- The authenticated user attached to a request (`request.user`); the guard
consults only its tenant id. -/
structure AuthUser where
  tenantId : String
  deriving Repr, DecidableEq

/-- An incoming request as the guard sees it: the optional authenticated user
and the optional `tenantId` values of `params`, `body` and `query` (an absent
property is `none`). -/
structure GuardRequest where
  user : Option AuthUser
  paramsTenantId : Option String
  bodyTenantId : Option String
  queryTenantId : Option String
  deriving Repr, DecidableEq

/-- The three observable outcomes of `canActivate`: `return true`,
`return false`, and `throw new ForbiddenException(...)`. -/
inductive GuardOutcome where
  | granted
  | denied
  | forbiddenTenant
  deriving Repr, DecidableEq

/-- JavaScript truthiness of an optional string: `undefined` and the empty
string are falsy. -/
def jsTruthy : Option String → Bool
  | none => false
  | some s => !s.isEmpty

/-- JavaScript `a || b` on optional strings. -/
def jsOr (a b : Option String) : Option String :=
  if jsTruthy a then a else b

/-- `request.params.tenantId || request.body.tenantId || request.query.tenantId`,
as in the guard's source. -/
def extractTenantId (req : GuardRequest) : Option String :=
  jsOr req.paramsTenantId (jsOr req.bodyTenantId req.queryTenantId)

/-- `TenantGuard.canActivate`, embedded from its source: `return false` when
no user is attached; `return true` when the extracted tenant id is falsy;
`throw ForbiddenException` when `user.tenantId !== tenantId`; `return true`
otherwise. -/
def canActivate (req : GuardRequest) : GuardOutcome :=
  let tenantId := extractTenantId req
  match req.user with
  | none => .denied
  | some u =>
    if !jsTruthy tenantId then .granted
    else if tenantId ≠ some u.tenantId then .forbiddenTenant
    else .granted

/-! ## Database schema fragments, embedded from the SQL init script and the
TypeORM entities -/

/-- The columns of `content.document_embeddings`, from the database init
script and the `DocumentEmbedding` entity. -/
def documentEmbeddingsColumns : List String :=
  ["id", "document_id", "chunk_index", "content", "embedding", "metadata", "created_at"]

/-- The declared dimensionality of the `embedding` column (`vector(1536)`,
the OpenAI ada-002 dimension). -/
def documentEmbeddingsVectorDim : Nat := 1536

/-- The uniqueness constraints declared on `content.document_embeddings`:
only the primary key on `id`. -/
def documentEmbeddingsUniqueKeys : List (List String) := [["id"]]

/-- A stored row of `content.document_embeddings`, with exactly the entity's
fields (uuids and timestamps modelled as naturals, jsonb metadata as text). -/
structure DocumentEmbeddingRow where
  id : Nat
  documentId : Nat
  chunkIndex : Nat
  content : List Char
  embedding : List ℚ
  metadata : List Char
  createdAt : Nat
  deriving Repr, DecidableEq

/-- The row-shape constraint the column types enforce: `vector(1536)` fixes
the embedding dimensionality; nothing constrains `(document_id, chunk_index)`
pairs. -/
def documentEmbeddingRowOk (r : DocumentEmbeddingRow) : Prop :=
  r.embedding.length = documentEmbeddingsVectorDim

/-- A stored row of `content.documents`, from the init script and the
`Document` entity (uuids and timestamps modelled as naturals). -/
structure DocumentRow where
  id : Nat
  tenantId : Nat
  siteId : Nat
  title : String
  content : String
  contentType : String
  createdAt : Nat
  updatedAt : Nat
  deriving Repr, DecidableEq

/-- `update_updated_at_column` from the init script: the BEFORE UPDATE
trigger body — sets `NEW.updated_at = NOW()` and returns NEW. -/
def update_updated_at_column (now : Nat) (newRow : DocumentRow) : DocumentRow :=
  { newRow with updatedAt := now }

/-- An SQL `UPDATE` on `content.documents` applying the column changes `f` to
the rows matching `id`: each matching row is replaced in place, after the
`update_documents_updated_at` BEFORE UPDATE trigger runs on the new row. -/
def updateDocuments (now : Nat) (id : Nat) (f : DocumentRow → DocumentRow)
    (table : List DocumentRow) : List DocumentRow :=
  table.map (fun r => if r.id = id then update_updated_at_column now (f r) else r)

/-- A concrete five-character document exercising the chunker. -/
def docW4 : Document := ⟨1, 1, ['D'], ['a', 'b', '.', 'c', 'd'], 0, ['L']⟩

/-- A concrete stored document row. -/
def docRowC9 : DocumentRow := ⟨1, 1, 1, "Roman Forum", "old text", "text", 0, 0⟩

/-- Concrete passages for the fusion witness: `pW1` appears on the lexical
axis only, `pW2` on the vector axis only. -/
def lexW : List (Passage × ℚ) := [(⟨1, 1, 0, 0, 2, ['a', 'b']⟩, 3)]

/-- Vector-axis input of the fusion witness. -/
def vecW : List (Passage × ℚ) := [(⟨2, 2, 1, 0, 2, ['c', 'd']⟩, 5)]

/-- Concrete collaborators for the stateful witnesses: constant embedding,
idf and similarity; ANN returns every scoped entry; the cross-encoder always
scores 1. -/
def collabW : Collaborators :=
  { embed := fun _ => [1],
    idf := fun _ _ => 1,
    sim := fun _ _ => 1,
    ann := fun _ sv => sv.map Prod.fst,
    crossScore := fun _ _ => some 1,
    generate := fun _ _ => ['o', 'k'] }

/-- Concrete retrieval configuration (α = 1, integer BM25 constants,
pool 10). -/
def cfgRW : RetrievalConfig := ⟨1, 2, 1, 10⟩

/-- A concrete index state: three passages of three distinct documents. -/
def sW : IndexState :=
  indexPassages collabW.embed
    [⟨1, 1, 0, 0, 2, ['a', 'b']⟩, ⟨2, 2, 0, 0, 2, ['c', 'd']⟩, ⟨3, 3, 0, 0, 2, ['e', 'f']⟩]
    ⟨[], [], []⟩

/-- The concrete retrieval result used by witnesses. -/
def retrW : List Candidate :=
  ((retrieveS collabW cfgRW [1, 2, 3] ['q'] sW).toOption).getD []

/-- A candidate whose scorer call fails in the rerank witness. -/
def cW1 : Candidate := ⟨⟨1, 1, 0, 0, 2, ['a', 'b']⟩, 1, 0, 1⟩

/-- A candidate whose scorer call succeeds in the rerank witness. -/
def cW2 : Candidate := ⟨⟨2, 2, 1, 0, 2, ['c', 'd']⟩, 0, 1, 1/2⟩

/-- A scorer failing on every candidate. -/
def scorerNone : Candidate → Option ℚ := fun _ => none

/-- A scorer failing on exactly half of the witness candidates. -/
def scorerHalf : Candidate → Option ℚ :=
  fun c => if c.passage.id = 2 then some 1 else none

/-- Index state for the removal witness: two documents indexed, document 1
then removed. -/
def sRemW : IndexState :=
  remove 1 (indexPassages collabW.embed
    [⟨1, 1, 0, 0, 2, ['a', 'b']⟩, ⟨2, 2, 0, 0, 2, ['c', 'd']⟩] ⟨[], [], []⟩)

/-- The concrete retrieval result over the post-removal index. -/
def candsRemW : List Candidate :=
  ((retrieveS collabW cfgRW [1, 2] ['q'] sRemW).toOption).getD []

/-- Session configuration for the orchestration witnesses: top-K 3, citation
floor 2, snippet bound 100, dedup enabled. -/
def cfgSW : SessionConfig := ⟨cfgRW, 3, 2, 100, true⟩

/-- The three parent documents of the concrete index state. -/
def docsW : List Document :=
  [⟨1, 1, ['D', '1'], ['a', 'b'], 0, ['L']⟩, ⟨2, 1, ['D', '2'], ['c', 'd'], 0, ['L']⟩,
   ⟨3, 1, ['D', '3'], ['e', 'f'], 0, ['L']⟩]

/-- A concrete narration request. -/
def reqW : NarrationRequest := ⟨1, 1, ['e', 'n'], ['q']⟩

/-- The concrete successful narration response of the session witness. -/
def respW : NarrationResponse :=
  (((answer collabW cfgSW docsW [1, 2, 3] sW reqW).1).toOption).getD ⟨[], []⟩

theorem chunkEnd_ge (text : List Char) (target slack start : Nat) :
    start + 1 ≤ chunkEnd text target slack start :=
  le_max_right _ _

theorem chunkEnd_le (text : List Char) (target slack start : Nat)
    (h : start < text.length) : chunkEnd text target slack start ≤ text.length := by
  unfold chunkEnd
  exact max_le (min_le_right _ _) h

theorem slice_append_drop (text : List Char) {s m : Nat} (h1 : s ≤ m) :
    sliceText text s m ++ text.drop m = text.drop s := by
  unfold sliceText
  have h2 : text.drop m = (text.drop s).drop (m - s) := by
    rw [List.drop_drop]
    congr 1
    omega
  rw [h2, List.take_append_drop]

theorem sliceText_take (text : List Char) {s m e : Nat} (h1 : s ≤ m) (h2 : m ≤ e) :
    (sliceText text s e).take (m - s) = sliceText text s m := by
  unfold sliceText
  rw [List.take_take]
  congr 1
  omega

/-- Combined correctness of the chunking loop: starting at `start < length`,
the produced passages are nonempty, begin at `start`, carry contiguous chunk
indices and sequential ids from `idx`, satisfy the adjacency contract, are
genuine slices of the document, and reconstruct `text.drop start`. -/
theorem chunkFrom_spec (doc : Document) (firstId target overlap slack : Nat) :
    ∀ n start idx, doc.text.length - start ≤ n → start < doc.text.length →
      (chunkFrom doc firstId target overlap slack start idx ≠ [] ∧
        (∀ p ∈ (chunkFrom doc firstId target overlap slack start idx).head?,
          p.startOffset = start) ∧
        (∀ i (h : i < (chunkFrom doc firstId target overlap slack start idx).length),
          ((chunkFrom doc firstId target overlap slack start idx).get ⟨i, h⟩).chunkIndex
              = idx + i ∧
            ((chunkFrom doc firstId target overlap slack start idx).get ⟨i, h⟩).id
              = firstId + idx + i) ∧
        List.Chain' (adjacentOk overlap) (chunkFrom doc firstId target overlap slack start idx) ∧
        (∀ p ∈ chunkFrom doc firstId target overlap slack start idx,
          p.startOffset < p.endOffset ∧ p.endOffset ≤ doc.text.length ∧
            p.text = sliceText doc.text p.startOffset p.endOffset) ∧
        reconstruct (chunkFrom doc firstId target overlap slack start idx)
            = doc.text.drop start) := by
  intro n
  induction n with
  | zero => intro start idx hn hs; omega
  | succ n ih =>
    intro start idx hn hs
    have hge := chunkEnd_ge doc.text target slack start
    have hle := chunkEnd_le doc.text target slack start hs
    rw [chunkFrom]
    rw [dif_pos hs]
    simp only
    by_cases he : chunkEnd doc.text target slack start < doc.text.length
    · rw [dif_pos he]
      set e := chunkEnd doc.text target slack start with hedef
      set start' := max (e - overlap) (start + 1) with hsd
      have hsub : e - overlap ≤ e := Nat.sub_le _ _
      have hmax1 : e - overlap ≤ start' := le_max_left _ _
      have hsge : start + 1 ≤ start' := le_max_right _ _
      have hsle : start' ≤ e := by
        rw [hsd]
        exact max_le hsub hge
      have hslt : start' < doc.text.length := lt_of_le_of_lt hsle he
      have hrec := ih start' (idx + 1) (by omega) hslt
      obtain ⟨hne, hhead, hidx, hchain, hslice, hrecon⟩ := hrec
      set rest := chunkFrom doc firstId target overlap slack start' (idx + 1) with hrest
      obtain ⟨q, rest', hq⟩ : ∃ q rest', rest = q :: rest' := by
        cases hrl : rest with
        | nil => exact absurd hrl hne
        | cons a l => exact ⟨a, l, rfl⟩
      have hqstart : q.startOffset = start' := by
        apply hhead
        rw [hq]; rfl
      refine ⟨by simp, ?_, ?_, ?_, ?_, ?_⟩
      · intro p hp
        simp only [List.head?_cons, Option.mem_def, Option.some.injEq] at hp
        rw [← hp]
      · intro i hlen
        cases i with
        | zero => exact ⟨by simp, by simp⟩
        | succ i =>
          simp only [List.get_cons_succ]
          have hh := hidx i (by simpa using Nat.lt_of_succ_lt_succ hlen)
          constructor
          · rw [hh.1]; omega
          · rw [hh.2]; omega
      · rw [hq, List.chain'_cons]
        constructor
        · unfold adjacentOk
          dsimp only
          rw [hqstart]
          omega
        · rw [← hq]; exact hchain
      · intro p hp
        rcases List.mem_cons.mp hp with hcase | hcase
        · rw [hcase]
          dsimp only
          exact ⟨by omega, le_of_lt he, rfl⟩
        · exact hslice p hcase
      · have hrecon' : reconstruct (q :: rest') = doc.text.drop start' := by
          rw [← hq]; exact hrecon
        rw [hq]
        simp only [reconstruct]
        rw [hrecon', hqstart]
        rw [sliceText_take doc.text (by omega) hsle]
        exact slice_append_drop doc.text (by omega)
    · rw [dif_neg he]
      refine ⟨by simp, ?_, ?_, ?_, ?_, ?_⟩
      · intro p hp
        simp only [List.head?_cons, Option.mem_def, Option.some.injEq] at hp
        rw [← hp]
      · intro i hlen
        simp only [List.length_cons, List.length_nil] at hlen
        interval_cases i
        exact ⟨by simp, by simp⟩
      · simp [List.chain'_singleton]
      · intro p hp
        simp only [List.mem_singleton] at hp
        rw [hp]
        dsimp only
        exact ⟨hs, le_refl _, rfl⟩
      · simp only [reconstruct]
        unfold sliceText
        apply List.take_of_length_le
        simp

theorem chunk_ok (doc : Document) (firstId target overlap slack : Nat)
    (hw : ¬ doc.text.all Char.isWhitespace = true) :
    chunk doc firstId target overlap slack
      = .ok (chunkFrom doc firstId target overlap slack 0 0) := by
  unfold chunk
  rw [if_neg hw]

theorem text_ne_nil_of_not_whitespace (doc : Document)
    (hw : ¬ doc.text.all Char.isWhitespace = true) : 0 < doc.text.length := by
  cases hd : doc.text with
  | nil => exact absurd (by rw [hd]; rfl) hw
  | cons a l => simp

/-! ## Helper lemmas about fusion -/

theorem minOf_le (l : List ℚ) : ∀ v ∈ l, minOf l ≤ v := by
  induction l with
  | nil => intro v hv; cases hv
  | cons x xs ih =>
    intro v hv
    rcases List.mem_cons.mp hv with h | h
    · subst h
      cases xs with
      | nil => exact le_refl _
      | cons y ys => exact min_le_left _ _
    · cases xs with
      | nil => cases h
      | cons y ys => exact le_trans (min_le_right _ _) (ih v h)

theorem le_maxOf (l : List ℚ) : ∀ v ∈ l, v ≤ maxOf l := by
  induction l with
  | nil => intro v hv; cases hv
  | cons x xs ih =>
    intro v hv
    rcases List.mem_cons.mp hv with h | h
    · subst h
      cases xs with
      | nil => exact le_refl _
      | cons y ys => exact le_max_left _ _
    · cases xs with
      | nil => cases h
      | cons y ys => exact le_trans (ih v h) (le_max_right _ _)

theorem minmaxNorm_bounds (l : List ℚ) (v : ℚ) (hv : v ∈ l) :
    0 ≤ minmaxNorm l v ∧ minmaxNorm l v ≤ 1 := by
  unfold minmaxNorm
  by_cases h : maxOf l = minOf l
  · simp [h]
  · rw [if_neg h]
    have h1 := minOf_le l v hv
    have h2 := le_maxOf l v hv
    have h3 : minOf l < maxOf l := lt_of_le_of_ne (le_trans h1 h2) (Ne.symm h)
    constructor
    · apply div_nonneg <;> linarith
    · rw [div_le_one (by linarith)]
      linarith

theorem dedupByIdGo_subset : ∀ (l : List Passage) (seen : List Nat),
    ∀ p ∈ dedupByIdGo seen l, p ∈ l := by
  intro l
  induction l with
  | nil =>
    intro seen p hp
    cases hp
  | cons q rest ih =>
    intro seen p hp
    simp only [dedupByIdGo] at hp
    by_cases hs : q.id ∈ seen
    · rw [if_pos hs] at hp
      exact List.mem_cons_of_mem _ (ih seen p hp)
    · rw [if_neg hs] at hp
      rcases List.mem_cons.mp hp with h | h
      · exact h ▸ List.mem_cons_self _ _
      · exact List.mem_cons_of_mem _ (ih _ p h)

theorem dedupByIdGo_not_seen : ∀ (l : List Passage) (seen : List Nat),
    ∀ p ∈ dedupByIdGo seen l, p.id ∉ seen := by
  intro l
  induction l with
  | nil =>
    intro seen p hp
    cases hp
  | cons q rest ih =>
    intro seen p hp
    simp only [dedupByIdGo] at hp
    by_cases hs : q.id ∈ seen
    · rw [if_pos hs] at hp
      exact ih seen p hp
    · rw [if_neg hs] at hp
      rcases List.mem_cons.mp hp with h | h
      · rw [h]
        exact hs
      · intro hin
        exact ih _ p h (List.mem_cons_of_mem _ hin)

theorem dedupByIdGo_nodup : ∀ (l : List Passage) (seen : List Nat),
    ((dedupByIdGo seen l).map Passage.id).Nodup := by
  intro l
  induction l with
  | nil =>
    intro seen
    simp [dedupByIdGo]
  | cons q rest ih =>
    intro seen
    simp only [dedupByIdGo]
    by_cases hs : q.id ∈ seen
    · rw [if_pos hs]
      exact ih seen
    · rw [if_neg hs]
      simp only [List.map_cons, List.nodup_cons]
      refine ⟨?_, ih _⟩
      intro hmem
      obtain ⟨p, hp, hpid⟩ := List.mem_map.mp hmem
      exact dedupByIdGo_not_seen rest (q.id :: seen) p hp
        (by rw [hpid]; exact List.mem_cons_self _ _)

theorem dedupByIdGo_covers : ∀ (l : List Passage) (seen : List Nat), ∀ p ∈ l,
    p.id ∈ seen ∨ ∃ q ∈ dedupByIdGo seen l, q.id = p.id := by
  intro l
  induction l with
  | nil =>
    intro seen p hp
    cases hp
  | cons q rest ih =>
    intro seen p hp
    simp only [dedupByIdGo]
    rcases List.mem_cons.mp hp with h | h
    · subst h
      by_cases hs : p.id ∈ seen
      · exact Or.inl hs
      · rw [if_neg hs]
        exact Or.inr ⟨p, List.mem_cons_self _ _, rfl⟩
    · by_cases hs : q.id ∈ seen
      · rw [if_pos hs]
        exact ih seen p h
      · rw [if_neg hs]
        rcases ih (q.id :: seen) p h with hin | ⟨r, hr, hrid⟩
        · rcases List.mem_cons.mp hin with h2 | h2
          · exact Or.inr ⟨q, List.mem_cons_self _ _, h2.symm⟩
          · exact Or.inl h2
        · exact Or.inr ⟨r, List.mem_cons_of_mem _ hr, hrid⟩

theorem dedupById_subset : ∀ (l : List Passage), ∀ p ∈ dedupById l, p ∈ l :=
  fun l => dedupByIdGo_subset l []

theorem dedupById_nodup (l : List Passage) : ((dedupById l).map Passage.id).Nodup :=
  dedupByIdGo_nodup l []

theorem dedupById_covers : ∀ (l : List Passage), ∀ p ∈ l, ∃ q ∈ dedupById l, q.id = p.id := by
  intro l p hp
  rcases dedupByIdGo_covers l [] p hp with hin | h
  · cases hin
  · exact h

theorem fuse_perm (α : ℚ) (lex vec : List (Passage × ℚ)) :
    (fuse α lex vec).Perm ((fusePool lex vec).map (mkCandidate α lex vec)) :=
  List.perm_insertionSort _ _

theorem fuse_sorted (α : ℚ) (lex vec : List (Passage × ℚ)) :
    List.Sorted fusedLE (fuse α lex vec) :=
  List.sorted_insertionSort _ _

theorem fuse_mem_iff {α : ℚ} {lex vec : List (Passage × ℚ)} {c : Candidate} :
    c ∈ fuse α lex vec ↔ ∃ p ∈ fusePool lex vec, mkCandidate α lex vec p = c := by
  rw [(fuse_perm α lex vec).mem_iff, List.mem_map]

theorem mkCandidate_passage (α : ℚ) (lex vec : List (Passage × ℚ)) (p : Passage) :
    (mkCandidate α lex vec p).passage = p := rfl

theorem lookupScore_eq_zero {l : List (Passage × ℚ)} {pid : Nat}
    (h : ∀ e ∈ l, e.1.id ≠ pid) : lookupScore l pid = 0 := by
  unfold lookupScore
  rw [List.find?_eq_none.mpr]
  · rfl
  · intro e he
    simp [h e he]

/-! ## Claim theorems -/

/-- **C4**: for every document with non-whitespace-only text, `chunk`
produces passages whose chunk indices are contiguous from 0 and strictly
increasing, whose consecutive offset ranges overlap only within the declared
overlap bound and leave no gap, which are genuine slices of the document
text, and whose union minus overlaps reconstructs the original text
exactly. -/
theorem chunk_coverage (doc : Document) (firstId target overlap slack : Nat)
    (hw : ¬ doc.text.all Char.isWhitespace = true) :
    ∃ ps, chunk doc firstId target overlap slack = .ok ps ∧ ps ≠ [] ∧
      (∀ i (h : i < ps.length), (ps.get ⟨i, h⟩).chunkIndex = i) ∧
      List.Chain' (adjacentOk overlap) ps ∧
      (∀ p ∈ ps, p.startOffset < p.endOffset ∧ p.endOffset ≤ doc.text.length ∧
        p.text = sliceText doc.text p.startOffset p.endOffset) ∧
      reconstruct ps = doc.text := by
  have hlen := text_ne_nil_of_not_whitespace doc hw
  obtain ⟨hne, hhead, hidx, hchain, hslice, hrecon⟩ :=
    chunkFrom_spec doc firstId target overlap slack doc.text.length 0 0 (by omega) hlen
  refine ⟨_, chunk_ok doc firstId target overlap slack hw, hne, ?_, hchain, hslice, ?_⟩
  · intro i h
    have hh := (hidx i h).1
    omega
  · rw [hrecon, List.drop_zero]

/-- Witness for C4 at a concrete document and configuration. -/
theorem chunk_coverage_witness :
    ∃ ps, chunk docW4 10 3 1 1 = .ok ps ∧ ps ≠ [] ∧
      (∀ i (h : i < ps.length), (ps.get ⟨i, h⟩).chunkIndex = i) ∧
      List.Chain' (adjacentOk 1) ps ∧
      (∀ p ∈ ps, p.startOffset < p.endOffset ∧ p.endOffset ≤ docW4.text.length ∧
        p.text = sliceText docW4.text p.startOffset p.endOffset) ∧
      reconstruct ps = docW4.text :=
  chunk_coverage docW4 10 3 1 1 (by decide)

/-- **C8 counterexample**: the stored passage table
(`content.document_embeddings`) carries no start/end character-offset
columns, and no uniqueness constraint covers `(document_id, chunk_index)`. -/
theorem document_embeddings_no_offsets :
    "start_offset" ∉ documentEmbeddingsColumns ∧
    "end_offset" ∉ documentEmbeddingsColumns ∧
    ["document_id", "chunk_index"] ∉ documentEmbeddingsUniqueKeys := by
  decide

/-- **C8 (amended)**: every stored passage record carries a chunk index, text
content and an embedding whose declared dimensionality is 1536 floats, but no
start/end character offsets; chunk-index uniqueness per document is not
enforced by any schema constraint. -/
theorem document_embeddings_schema :
    "chunk_index" ∈ documentEmbeddingsColumns ∧
    "content" ∈ documentEmbeddingsColumns ∧
    "embedding" ∈ documentEmbeddingsColumns ∧
    documentEmbeddingsVectorDim = 1536 ∧
    (∀ r : DocumentEmbeddingRow, documentEmbeddingRowOk r →
      r.embedding.length = 1536) ∧
    "start_offset" ∉ documentEmbeddingsColumns ∧
    "end_offset" ∉ documentEmbeddingsColumns ∧
    ["document_id", "chunk_index"] ∉ documentEmbeddingsUniqueKeys := by
  refine ⟨by decide, by decide, by decide, rfl, ?_, by decide, by decide, by decide⟩
  intro r hr
  exact hr

/-- Witness for the amended C8's row-shape hypothesis at a concrete row. -/
theorem document_embeddings_schema_witness :
    (⟨1, 1, 0, ['x'], List.replicate 1536 (0 : ℚ), [], 0⟩ :
        DocumentEmbeddingRow).embedding.length = 1536 :=
  document_embeddings_schema.2.2.2.2.1 _ (List.length_replicate 1536 0)

/-- **C9 counterexample**: an SQL UPDATE on `content.documents` mutates the
stored row in place — the stored title changes, `updated_at` is set by the
`update_documents_updated_at` trigger, and the table keeps the same single
row (no new document version is created). -/
theorem documents_update_mutates :
    updateDocuments 5 1 (fun r => { r with title := "New Title" }) [docRowC9]
        = [{ docRowC9 with title := "New Title", updatedAt := 5 }] ∧
    (updateDocuments 5 1 (fun r => { r with title := "New Title" }) [docRowC9]).length
        = [docRowC9].length := by
  constructor <;> rfl

/-- **C9 (amended)**: documents are mutable in place: an UPDATE preserves the
row count (no version row is added), leaves non-matching rows unchanged, and
replaces each matching row with the updated row whose `updated_at` the
BEFORE UPDATE trigger sets to the current time. -/
theorem documents_update_in_place (now id : Nat) (f : DocumentRow → DocumentRow)
    (table : List DocumentRow) :
    (updateDocuments now id f table).length = table.length ∧
    (∀ r ∈ table, r.id ≠ id → r ∈ updateDocuments now id f table) ∧
    (∀ r ∈ table, r.id = id →
      { f r with updatedAt := now } ∈ updateDocuments now id f table) ∧
    (∀ r' ∈ updateDocuments now id f table, r'.updatedAt = now ∨ r' ∈ table) := by
  refine ⟨List.length_map _ _, ?_, ?_, ?_⟩
  · intro r hr hne
    apply List.mem_map.mpr
    refine ⟨r, hr, ?_⟩
    show (if r.id = id then update_updated_at_column now (f r) else r) = r
    rw [if_neg hne]
  · intro r hr heq
    apply List.mem_map.mpr
    refine ⟨r, hr, ?_⟩
    show (if r.id = id then update_updated_at_column now (f r) else r) = _
    rw [if_pos heq]
    rfl
  · intro r' hr'
    obtain ⟨r, hr, hval⟩ := List.mem_map.mp hr'
    by_cases hid : r.id = id
    · rw [if_pos hid] at hval
      left
      rw [← hval]
      rfl
    · rw [if_neg hid] at hval
      right
      rw [← hval]
      exact hr

/-- Witness for C9 (amended) at the concrete one-row table. -/
theorem documents_update_in_place_witness :
    { (fun r => { r with title := "New Title" }) docRowC9 with updatedAt := 5 }
        ∈ updateDocuments 5 1 (fun r => { r with title := "New Title" }) [docRowC9] :=
  (documents_update_in_place 5 1 (fun r => { r with title := "New Title" })
    [docRowC9]).2.2.1 docRowC9 (by decide) rfl

/-- **C10**: `TenantGuard.canActivate` returns false for every request
without an authenticated user; returns true for every authenticated request
whose extracted tenant id (params, then body, then query, under JavaScript
truthiness) is unspecified; throws `ForbiddenException` when the extracted
explicit tenant id differs from the authenticated user's tenant id; and
returns true when they match. -/
theorem tenant_guard_behavior (req : GuardRequest) :
    (req.user = none → canActivate req = .denied) ∧
    (∀ u, req.user = some u → jsTruthy (extractTenantId req) = false →
      canActivate req = .granted) ∧
    (∀ u s, req.user = some u → extractTenantId req = some s →
      jsTruthy (extractTenantId req) = true → s ≠ u.tenantId →
      canActivate req = .forbiddenTenant) ∧
    (∀ u, req.user = some u → extractTenantId req = some u.tenantId →
      canActivate req = .granted) := by
  unfold canActivate
  refine ⟨?_, ?_, ?_, ?_⟩
  · intro h
    rw [h]
  · intro u hu ht
    rw [hu]
    simp [ht]
  · intro u s hu hs ht hne
    rw [hu]
    simp only [hs] at ht ⊢
    simp [ht, hne]
  · intro u hu hs
    rw [hu]
    simp only [hs]
    by_cases he : jsTruthy (some u.tenantId) = true
    · simp [he]
    · simp [he]

/-- Witness for C10 exercising all four guard branches at concrete
requests. -/
theorem tenant_guard_behavior_witness :
    canActivate ⟨none, some "t1", none, none⟩ = .denied ∧
    canActivate ⟨some ⟨"t1"⟩, none, none, none⟩ = .granted ∧
    canActivate ⟨some ⟨"t1"⟩, some "t2", none, none⟩ = .forbiddenTenant ∧
    canActivate ⟨some ⟨"t1"⟩, none, some "t1", none⟩ = .granted :=
  ⟨(tenant_guard_behavior _).1 rfl,
   (tenant_guard_behavior _).2.1 ⟨"t1"⟩ rfl rfl,
   (tenant_guard_behavior _).2.2.1 ⟨"t1"⟩ "t2" rfl rfl rfl (by decide),
   (tenant_guard_behavior _).2.2.2 ⟨"t1"⟩ rfl rfl⟩

/-- **C3**: fusion deduplicates candidates by passage id (each input passage
is represented exactly once), stores both raw subscores (0 for an axis the
passage is missing from), combines the independently min-max-normalized
subscores (each normalization landing in [0,1]) as
`α·lexical_norm + (1-α)·vector_norm`, and orders by fused score descending
with ties broken by chunk index ascending. -/
theorem fuse_spec (α : ℚ) (lex vec : List (Passage × ℚ)) :
    ((fuse α lex vec).map (fun c => c.passage.id)).Nodup ∧
    (∀ c ∈ fuse α lex vec,
      c.passage ∈ lex.map Prod.fst ++ vec.map Prod.fst ∧
      c.lexScore = lookupScore lex c.passage.id ∧
      c.vecScore = lookupScore vec c.passage.id ∧
      c.fused = α * minmaxNorm ((fusePool lex vec).map (fun q => lookupScore lex q.id))
          c.lexScore
        + (1 - α) * minmaxNorm ((fusePool lex vec).map (fun q => lookupScore vec q.id))
          c.vecScore ∧
      0 ≤ minmaxNorm ((fusePool lex vec).map (fun q => lookupScore lex q.id)) c.lexScore ∧
      minmaxNorm ((fusePool lex vec).map (fun q => lookupScore lex q.id)) c.lexScore ≤ 1 ∧
      0 ≤ minmaxNorm ((fusePool lex vec).map (fun q => lookupScore vec q.id)) c.vecScore ∧
      minmaxNorm ((fusePool lex vec).map (fun q => lookupScore vec q.id)) c.vecScore ≤ 1) ∧
    (∀ pr ∈ lex ++ vec, ∃ c ∈ fuse α lex vec, c.passage.id = pr.1.id) ∧
    (∀ c ∈ fuse α lex vec, (∀ e ∈ lex, e.1.id ≠ c.passage.id) → c.lexScore = 0) ∧
    (∀ c ∈ fuse α lex vec, (∀ e ∈ vec, e.1.id ≠ c.passage.id) → c.vecScore = 0) ∧
    List.Sorted fusedLE (fuse α lex vec) := by
  have hmm : ((fusePool lex vec).map (mkCandidate α lex vec)).map (fun c => c.passage.id)
      = (fusePool lex vec).map Passage.id := by
    rw [List.map_map]
    rfl
  refine ⟨?_, ?_, ?_, ?_, ?_, fuse_sorted α lex vec⟩
  · rw [List.Perm.nodup_iff ((fuse_perm α lex vec).map (fun c => c.passage.id))]
    rw [hmm]
    exact dedupById_nodup _
  · intro c hc
    obtain ⟨p, hp, hpc⟩ := fuse_mem_iff.mp hc
    subst hpc
    have hps := dedupById_subset _ p hp
    refine ⟨hps, rfl, rfl, rfl, ?_, ?_, ?_, ?_⟩
    · exact (minmaxNorm_bounds _ _ (List.mem_map_of_mem _ hp)).1
    · exact (minmaxNorm_bounds _ _ (List.mem_map_of_mem _ hp)).2
    · exact (minmaxNorm_bounds _ _ (List.mem_map_of_mem _ hp)).1
    · exact (minmaxNorm_bounds _ _ (List.mem_map_of_mem _ hp)).2
  · intro pr hpr
    have hmem : pr.1 ∈ lex.map Prod.fst ++ vec.map Prod.fst := by
      rcases List.mem_append.mp hpr with h | h
      · exact List.mem_append.mpr (Or.inl (List.mem_map_of_mem _ h))
      · exact List.mem_append.mpr (Or.inr (List.mem_map_of_mem _ h))
    obtain ⟨q, hq, hqid⟩ := dedupById_covers _ pr.1 hmem
    exact ⟨mkCandidate α lex vec q, fuse_mem_iff.mpr ⟨q, hq, rfl⟩, hqid⟩
  · intro c hc hno
    obtain ⟨p, hp, hpc⟩ := fuse_mem_iff.mp hc
    subst hpc
    exact lookupScore_eq_zero hno
  · intro c hc hno
    obtain ⟨p, hp, hpc⟩ := fuse_mem_iff.mp hc
    subst hpc
    exact lookupScore_eq_zero hno

/-- Witness for C3 at concrete axis lists: the lexical-only passage is
represented in the fused output. -/
theorem fuse_spec_witness :
    ∃ c ∈ fuse (1/2) lexW vecW,
      c.passage.id = ((⟨1, 1, 0, 0, 2, ['a', 'b']⟩ : Passage), (3 : ℚ)).1.id :=
  (fuse_spec (1/2) lexW vecW).2.2.1 (⟨1, 1, 0, 0, 2, ['a', 'b']⟩, 3) (by decide)

/-- **C7**: retrieval is a deterministic function of its inputs: identical
collaborators, configuration (including α), scope, query and index state give
identical results, and every successful result is ordered by the
deterministic fused order (fused score descending, ties broken by chunk
index), so repeated calls agree including tie-breaking. -/
theorem retrieve_deterministic (collab₁ collab₂ : Collaborators)
    (cfg₁ cfg₂ : RetrievalConfig) (scope₁ scope₂ : List Nat) (q₁ q₂ : List Char)
    (s₁ s₂ : IndexState) (h1 : collab₁ = collab₂) (h2 : cfg₁ = cfg₂)
    (h3 : scope₁ = scope₂) (h4 : q₁ = q₂) (h5 : s₁ = s₂) :
    retrieveS collab₁ cfg₁ scope₁ q₁ s₁ = retrieveS collab₂ cfg₂ scope₂ q₂ s₂ ∧
    (∀ cands, retrieveS collab₁ cfg₁ scope₁ q₁ s₁ = .ok cands →
      List.Sorted fusedLE cands) := by
  subst h1 h2 h3 h4 h5
  refine ⟨rfl, ?_⟩
  intro cands hc
  unfold retrieveS at hc
  by_cases hemp : (scopedPassages scope₁ s₁).isEmpty
  · rw [if_pos hemp] at hc
    cases hc
  · rw [if_neg hemp] at hc
    injection hc with hc
    rw [← hc]
    exact List.Pairwise.sublist (List.take_sublist _ _) (fuse_sorted _ _ _)

/-- Witness for C7 at a concrete query over the concrete index state. -/
theorem retrieve_deterministic_witness :
    retrieveS collabW cfgRW [1, 2, 3] ['q'] sW
        = retrieveS collabW cfgRW [1, 2, 3] ['q'] sW ∧
    List.Sorted fusedLE retrW :=
  ⟨(retrieve_deterministic collabW collabW cfgRW cfgRW [1, 2, 3] [1, 2, 3] ['q'] ['q']
      sW sW rfl rfl rfl rfl rfl).1,
   (retrieve_deterministic collabW collabW cfgRW cfgRW [1, 2, 3] [1, 2, 3] ['q'] ['q']
      sW sW rfl rfl rfl rfl rfl).2 retrW (by rfl)⟩

theorem attachRanks_map (l : List (Candidate × WithBot ℚ)) :
    ∀ n, (attachRanks n l).map (fun r => (r.cand, r.score)) = l := by
  induction l with
  | nil => intro n; rfl
  | cons e rest ih =>
    intro n
    simp [attachRanks, ih]

theorem attachRanks_mem {l : List (Candidate × WithBot ℚ)} {n : Nat} :
    ∀ r ∈ attachRanks n l, (r.cand, r.score) ∈ l := by
  intro r hr
  have hh := List.mem_map_of_mem (fun r : RankedResult => (r.cand, r.score)) hr
  rw [attachRanks_map l n] at hh
  exact hh

theorem rerank_ok_eq {scorer : Candidate → Option ℚ} {cands : List Candidate}
    {topK : Nat} {rs : List RankedResult}
    (h : rerank scorer cands topK = .ok rs) :
    rs = attachRanks 0
      ((List.insertionSort rerankLE
        (cands.map (fun c => (c, toScore (scorer c))))).take topK) := by
  unfold rerank at h
  by_cases hb : ((cands.all (fun c => (scorer c).isNone)) && !cands.isEmpty) = true
  · rw [if_pos hb] at h
    cases h
  · rw [if_neg hb] at h
    injection h with h
    exact h.symm

theorem rerank_ok_mem {scorer : Candidate → Option ℚ} {cands : List Candidate}
    {topK : Nat} {rs : List RankedResult}
    (h : rerank scorer cands topK = .ok rs) :
    ∀ r ∈ rs, r.cand ∈ cands ∧ r.score = toScore (scorer r.cand) := by
  intro r hr
  rw [rerank_ok_eq h] at hr
  have hp := attachRanks_mem _ hr
  have hp2 : (r.cand, r.score)
      ∈ List.insertionSort rerankLE (cands.map (fun c => (c, toScore (scorer c)))) :=
    (List.take_sublist _ _).subset hp
  have hp3 := (List.perm_insertionSort rerankLE _).mem_iff.mp hp2
  obtain ⟨c, hc, hceq⟩ := List.mem_map.mp hp3
  have h1 : c = r.cand := congrArg Prod.fst hceq
  have h2 : toScore (scorer c) = r.score := congrArg Prod.snd hceq
  subst h1
  exact ⟨hc, h2.symm⟩

theorem rerank_ok_sorted {scorer : Candidate → Option ℚ} {cands : List Candidate}
    {topK : Nat} {rs : List RankedResult}
    (h : rerank scorer cands topK = .ok rs) :
    List.Sorted rerankLE (rs.map (fun r => (r.cand, r.score))) := by
  rw [rerank_ok_eq h, attachRanks_map]
  exact List.Pairwise.sublist (List.take_sublist _ _) (List.sorted_insertionSort _ _)

/-- **C5**: when the external scorer fails on some but not all candidates,
each failed candidate is assigned score `⊥` (minus infinity) and the call
succeeds with a result ordered by the rerank order — so failed candidates
sort last; when the scorer fails on every candidate, the call fails with
`RerankUnavailableError` and the pipeline falls back to the fused retrieval
order directly. -/
theorem rerank_degradation (scorer : Candidate → Option ℚ) (cands : List Candidate)
    (topK : Nat) :
    ((∀ c ∈ cands, scorer c = none) → cands ≠ [] →
      rerank scorer cands topK = .error .rerankUnavailable ∧
      rankedOrFallback scorer cands topK = fallbackRanked cands topK) ∧
    ((∃ c ∈ cands, (scorer c).isSome) →
      ∃ rs, rerank scorer cands topK = .ok rs ∧
        rankedOrFallback scorer cands topK = rs ∧
        (∀ r ∈ rs, r.cand ∈ cands ∧ r.score = toScore (scorer r.cand)) ∧
        List.Sorted rerankLE (rs.map (fun r => (r.cand, r.score))) ∧
        List.Pairwise (fun r1 r2 => r1.score = ⊥ → r2.score = ⊥) rs) := by
  constructor
  · intro hall hne
    have hcond : ((cands.all (fun c => (scorer c).isNone)) && !cands.isEmpty) = true := by
      rw [Bool.and_eq_true]
      constructor
      · rw [List.all_eq_true]
        intro c hc
        rw [hall c hc]
        rfl
      · cases cands with
        | nil => exact absurd rfl hne
        | cons a l => rfl
    have herr : rerank scorer cands topK = .error .rerankUnavailable := by
      unfold rerank
      rw [if_pos hcond]
    refine ⟨herr, ?_⟩
    unfold rankedOrFallback
    rw [herr]
  · intro hex
    have hcond : ¬ ((cands.all (fun c => (scorer c).isNone)) && !cands.isEmpty) = true := by
      obtain ⟨c, hc, hcs⟩ := hex
      intro hcond
      rw [Bool.and_eq_true, List.all_eq_true] at hcond
      have hn := hcond.1 c hc
      rw [Option.isNone_iff_eq_none] at hn
      rw [hn] at hcs
      cases hcs
    have hok : rerank scorer cands topK = .ok (attachRanks 0
        ((List.insertionSort rerankLE
          (cands.map (fun c => (c, toScore (scorer c))))).take topK)) := by
      unfold rerank
      rw [if_neg hcond]
    refine ⟨_, hok, ?_, rerank_ok_mem hok, rerank_ok_sorted hok, ?_⟩
    · unfold rankedOrFallback
      rw [hok]
    · have hs := rerank_ok_sorted hok
      have hpw := (List.pairwise_map).mp hs
      refine hpw.imp ?_
      intro r1 r2 hab hbot
      rcases hab with h | ⟨heq, h2⟩
      · have h' : r2.score < r1.score := h
        rw [hbot] at h'
        exact absurd h' (not_lt_bot)
      · have heq' : r1.score = r2.score := heq
        rw [← heq', hbot]

/-- Witness for C5: the all-fail call errors and falls back to fused order;
the half-fail call succeeds, ordered with the failed candidate last. -/
theorem rerank_degradation_witness :
    (rerank scorerNone [cW1] 5 = .error .rerankUnavailable ∧
      rankedOrFallback scorerNone [cW1] 5 = fallbackRanked [cW1] 5) ∧
    (∃ rs, rerank scorerHalf [cW1, cW2] 5 = .ok rs ∧
      rankedOrFallback scorerHalf [cW1, cW2] 5 = rs ∧
      (∀ r ∈ rs, r.cand ∈ [cW1, cW2] ∧ r.score = toScore (scorerHalf r.cand)) ∧
      List.Sorted rerankLE (rs.map (fun r => (r.cand, r.score))) ∧
      List.Pairwise (fun r1 r2 => r1.score = ⊥ → r2.score = ⊥) rs) :=
  ⟨(rerank_degradation scorerNone [cW1] 5).1 (fun c _ => rfl) (by decide),
   (rerank_degradation scorerHalf [cW1, cW2] 5).2 ⟨cW2, by simp, rfl⟩⟩

theorem remove_vecIndex_docs (d : Nat) (s : IndexState) :
    ∀ e ∈ (remove d s).vecIndex, lookupDoc s.arena e.1 ≠ some d := by
  intro e he
  have he' : e ∈ s.vecIndex.filter (fun e => lookupDoc s.arena e.1 != some d) := he
  have hf := (List.mem_filter.mp he').2
  simpa using hf

theorem remove_postings_docs (d : Nat) (s : IndexState) :
    ∀ tp ∈ (remove d s).postings, ∀ e ∈ tp.2, lookupDoc s.arena e.1 ≠ some d := by
  intro tp htp e he
  have htp' : tp ∈ s.postings.map
      (fun tp => (tp.1, tp.2.filter (fun e => lookupDoc s.arena e.1 != some d))) := htp
  obtain ⟨tp0, htp0, heq⟩ := List.mem_map.mp htp'
  rw [← heq] at he
  have he' : e ∈ tp0.2.filter (fun e => lookupDoc s.arena e.1 != some d) := he
  have hf := (List.mem_filter.mp he').2
  simpa using hf

theorem lookupPostings_entry_mem (postings : List (List Char × List (Nat × Nat)))
    (t : List Char) (e : Nat × Nat) (he : e ∈ lookupPostings postings t) :
    ∃ tp ∈ postings, e ∈ tp.2 := by
  unfold lookupPostings at he
  cases hf : postings.find? (fun tp => tp.1 == t) with
  | none =>
    rw [hf] at he
    exact absurd he (List.not_mem_nil e)
  | some tp =>
    rw [hf] at he
    exact ⟨tp, List.mem_of_find?_eq_some hf, he⟩

theorem lexCandidates_remove (cfg : RetrievalConfig) (idf : Nat → Nat → ℚ)
    (scope : List Nat) (qT : List (List Char)) (d : Nat) (s : IndexState) :
    ∀ pr ∈ lexCandidates cfg idf scope qT (remove d s), pr.1.docId ≠ d := by
  intro pr hpr
  unfold lexCandidates at hpr
  obtain ⟨pid, hpid, hsome⟩ := List.mem_filterMap.mp hpr
  cases hl : lookupPassage (remove d s).arena pid with
  | none =>
    rw [hl] at hsome
    cases hsome
  | some p =>
    rw [hl] at hsome
    simp only [Option.some_bind] at hsome
    by_cases hsc : scope.contains p.docId
    · rw [if_pos hsc] at hsome
      injection hsome with hsome
      have hdedup := List.mem_dedup.mp hpid
      obtain ⟨l, hlmem, hpidl⟩ := List.mem_flatten.mp hdedup
      obtain ⟨t, htq, hleq⟩ := List.mem_map.mp hlmem
      rw [← hleq] at hpidl
      obtain ⟨e, he, heid⟩ := List.mem_map.mp hpidl
      obtain ⟨tp, htp, hetp⟩ := lookupPostings_entry_mem _ _ _ he
      have hnd := remove_postings_docs d s tp htp e hetp
      rw [heid] at hnd
      have hdoc : lookupDoc s.arena pid = some p.docId := by
        unfold lookupDoc
        rw [show lookupPassage s.arena pid = some p from hl]
        rfl
      rw [← hsome]
      show p.docId ≠ d
      intro hc
      exact hnd (by rw [hdoc, hc])
    · rw [if_neg hsc] at hsome
      cases hsome

theorem vecCandidates_remove (collab : Collaborators) (scope : List Nat)
    (qVec : List ℚ) (d : Nat) (s : IndexState) :
    ∀ pr ∈ vecCandidates collab scope qVec (remove d s), pr.1.docId ≠ d := by
  intro pr hpr
  unfold vecCandidates at hpr
  obtain ⟨pid, hpid, hsome⟩ := List.mem_filterMap.mp hpr
  by_cases hany : (scopedVectors scope (remove d s)).any (fun e => e.1 == pid)
  · rw [if_pos hany] at hsome
    cases hl : lookupPassage (remove d s).arena pid with
    | none =>
      rw [hl] at hsome
      cases hsome
    | some p =>
      rw [hl] at hsome
      injection hsome with hsome
      obtain ⟨e, he, heid⟩ := List.any_eq_true.mp hany
      have he' : e ∈ (remove d s).vecIndex.filter
          (fun e => ((lookupDoc (remove d s).arena e.1).map scope.contains).getD false) := he
      have hev : e ∈ (remove d s).vecIndex := (List.mem_filter.mp he').1
      have hnd := remove_vecIndex_docs d s e hev
      have heid' : e.1 = pid := by simpa using heid
      rw [heid'] at hnd
      have hdoc : lookupDoc s.arena pid = some p.docId := by
        unfold lookupDoc
        rw [show lookupPassage s.arena pid = some p from hl]
        rfl
      rw [← hsome]
      show p.docId ≠ d
      intro hc
      exact hnd (by rw [hdoc, hc])
  · rw [if_neg hany] at hsome
    cases hsome

theorem fuse_passage_mem {α : ℚ} {lex vec : List (Passage × ℚ)} :
    ∀ c ∈ fuse α lex vec, c.passage ∈ lex.map Prod.fst ++ vec.map Prod.fst := by
  intro c hc
  obtain ⟨p, hp, hpc⟩ := fuse_mem_iff.mp hc
  subst hpc
  exact dedupById_subset _ p hp

theorem retrieveS_ok_eq {collab : Collaborators} {cfg : RetrievalConfig}
    {scope : List Nat} {q : List Char} {s : IndexState} {cands : List Candidate}
    (h : retrieveS collab cfg scope q s = .ok cands) :
    cands = (fuse cfg.alpha (lexCandidates cfg collab.idf scope (tokenize q) s)
      (vecCandidates collab scope (collab.embed q) s)).take cfg.poolSize := by
  unfold retrieveS at h
  by_cases hemp : (scopedPassages scope s).isEmpty
  · rw [if_pos hemp] at h
    cases h
  · rw [if_neg hemp] at h
    injection h with h
    exact h.symm

/-- **C2**: after `index(passages)` followed by `remove(document_id)`, every
remaining vector-index entry and lexical posting belongs to some other
document, and no subsequent retrieval call returns a candidate whose passage
belongs to the removed document. -/
theorem index_remove_consistency (embedP : List Char → List ℚ) (ps : List Passage)
    (d : Nat) (s : IndexState) (collab : Collaborators) (cfg : RetrievalConfig)
    (scope : List Nat) (q : List Char) :
    (∀ e ∈ (remove d (indexPassages embedP ps s)).vecIndex,
      lookupDoc (indexPassages embedP ps s).arena e.1 ≠ some d) ∧
    (∀ tp ∈ (remove d (indexPassages embedP ps s)).postings, ∀ e ∈ tp.2,
      lookupDoc (indexPassages embedP ps s).arena e.1 ≠ some d) ∧
    (∀ cands,
      retrieveS collab cfg scope q (remove d (indexPassages embedP ps s)) = .ok cands →
      ∀ c ∈ cands, c.passage.docId ≠ d) := by
  refine ⟨remove_vecIndex_docs d _, remove_postings_docs d _, ?_⟩
  intro cands hc c hcc
  rw [retrieveS_ok_eq hc] at hcc
  have hcf := (List.take_sublist _ _).subset hcc
  have hcp := fuse_passage_mem c hcf
  rcases List.mem_append.mp hcp with h | h
  · obtain ⟨pr, hpr, hpreq⟩ := List.mem_map.mp h
    have hh := lexCandidates_remove cfg collab.idf scope (tokenize q) d
      (indexPassages embedP ps s) pr hpr
    rw [hpreq] at hh
    exact hh
  · obtain ⟨pr, hpr, hpreq⟩ := List.mem_map.mp h
    have hh := vecCandidates_remove collab scope (collab.embed q) d
      (indexPassages embedP ps s) pr hpr
    rw [hpreq] at hh
    exact hh

/-- Empty-axis fusion yields no candidates. -/
theorem fuse_nil (α : ℚ) : fuse α [] [] = [] := by
  unfold fuse fusePool
  simp only [List.map_nil, List.append_nil]
  rw [dedupById]
  rfl

/-- **C6**: `retrieve` fails with `EmptyCorpusError` exactly when the corpus
scope matches zero passages (and that is its only failure); a non-empty scope
whose passages simply do not match the query returns an empty but successful
result; and `answer` propagates retrieval errors to its caller unchanged. -/
theorem retrieve_empty_corpus (collab : Collaborators) (cfg : RetrievalConfig)
    (scope : List Nat) (q : List Char) (s : IndexState) :
    (retrieveS collab cfg scope q s = .error .emptyCorpus ↔
      scopedPassages scope s = []) ∧
    (∀ e, retrieveS collab cfg scope q s = .error e → e = .emptyCorpus) ∧
    (scopedPassages scope s ≠ [] →
      lexCandidates cfg collab.idf scope (tokenize q) s = [] →
      vecCandidates collab scope (collab.embed q) s = [] →
      retrieveS collab cfg scope q s = .ok []) ∧
    (∀ (cfgS : SessionConfig) (docs : List Document) (req : NarrationRequest)
        (e : RagError),
      retrieveS collab cfgS.retrieval scope req.question s = .error e →
      (answer collab cfgS docs scope s req).1 = .error e) := by
  refine ⟨⟨?_, ?_⟩, ?_, ?_, ?_⟩
  · intro h
    by_cases hemp : (scopedPassages scope s).isEmpty
    · exact List.isEmpty_iff.mp hemp
    · unfold retrieveS at h
      rw [if_neg hemp] at h
      cases h
  · intro h
    unfold retrieveS
    rw [if_pos (List.isEmpty_iff.mpr h)]
  · intro e h
    unfold retrieveS at h
    by_cases hemp : (scopedPassages scope s).isEmpty
    · rw [if_pos hemp] at h
      injection h with h
      exact h.symm
    · rw [if_neg hemp] at h
      cases h
  · intro hne hlex hvec
    unfold retrieveS
    rw [if_neg (by simpa [List.isEmpty_iff] using hne)]
    rw [hlex, hvec, fuse_nil]
    rw [List.take_nil]
  · intro cfgS docs req e hre
    unfold answer
    rw [hre]

/-- Witness for C2: after removing document 1, the only candidate the
concrete retrieval returns belongs to document 2. -/
theorem index_remove_consistency_witness :
    (⟨⟨2, 2, 0, 0, 2, ['c', 'd']⟩, 0, 1, 0⟩ : Candidate).passage.docId ≠ 1 :=
  (index_remove_consistency collabW.embed
      [⟨1, 1, 0, 0, 2, ['a', 'b']⟩, ⟨2, 2, 0, 0, 2, ['c', 'd']⟩] 1 ⟨[], [], []⟩
      collabW cfgRW [1, 2] ['q']).2.2 candsRemW (by rfl) _
    (by
      rw [show candsRemW = [⟨⟨2, 2, 0, 0, 2, ['c', 'd']⟩, 0, 1, 0⟩] from by with_unfolding_all rfl]
      exact List.mem_singleton_self _)

/-- Witness for C6: a scope matching no ingested document makes the concrete
retrieval fail with `EmptyCorpusError`, and `answer` propagates it. -/
theorem retrieve_empty_corpus_witness :
    retrieveS collabW cfgRW [9] ['q'] sW = .error .emptyCorpus ∧
    (answer collabW cfgSW docsW [9] sW reqW).1 = .error .emptyCorpus :=
  ⟨(retrieve_empty_corpus collabW cfgRW [9] ['q'] sW).1.mpr (by rfl),
   (retrieve_empty_corpus collabW cfgSW.retrieval [9] reqW.question sW).2.2.2
     cfgSW docsW reqW .emptyCorpus (by rfl)⟩

theorem dedupByDocGo_subset : ∀ (l : List Citation) (seen : List Nat),
    ∀ c ∈ dedupByDocGo seen l, c ∈ l := by
  intro l
  induction l with
  | nil =>
    intro seen c hc
    cases hc
  | cons d rest ih =>
    intro seen c hc
    simp only [dedupByDocGo] at hc
    by_cases hs : d.docId ∈ seen
    · rw [if_pos hs] at hc
      exact List.mem_cons_of_mem _ (ih seen c hc)
    · rw [if_neg hs] at hc
      rcases List.mem_cons.mp hc with h | h
      · exact h ▸ List.mem_cons_self _ _
      · exact List.mem_cons_of_mem _ (ih _ c h)

theorem dedupByDocGo_not_seen : ∀ (l : List Citation) (seen : List Nat),
    ∀ c ∈ dedupByDocGo seen l, c.docId ∉ seen := by
  intro l
  induction l with
  | nil =>
    intro seen c hc
    cases hc
  | cons d rest ih =>
    intro seen c hc
    simp only [dedupByDocGo] at hc
    by_cases hs : d.docId ∈ seen
    · rw [if_pos hs] at hc
      exact ih seen c hc
    · rw [if_neg hs] at hc
      rcases List.mem_cons.mp hc with h | h
      · rw [h]
        exact hs
      · intro hin
        exact ih _ c h (List.mem_cons_of_mem _ hin)

theorem dedupByDocGo_nodup : ∀ (l : List Citation) (seen : List Nat),
    ((dedupByDocGo seen l).map Citation.docId).Nodup := by
  intro l
  induction l with
  | nil =>
    intro seen
    simp [dedupByDocGo]
  | cons d rest ih =>
    intro seen
    simp only [dedupByDocGo]
    by_cases hs : d.docId ∈ seen
    · rw [if_pos hs]
      exact ih seen
    · rw [if_neg hs]
      simp only [List.map_cons, List.nodup_cons]
      refine ⟨?_, ih _⟩
      intro hmem
      obtain ⟨c, hc, hcid⟩ := List.mem_map.mp hmem
      exact dedupByDocGo_not_seen rest (d.docId :: seen) c hc
        (by rw [hcid]; exact List.mem_cons_self _ _)

theorem dedupByDoc_subset (l : List Citation) : ∀ c ∈ dedupByDoc l, c ∈ l :=
  dedupByDocGo_subset l []

theorem dedupByDoc_pairwise (l : List Citation) :
    (dedupByDoc l).Pairwise (fun c1 c2 => c1.docId ≠ c2.docId) :=
  (List.pairwise_map).mp (dedupByDocGo_nodup l [])

theorem buildCitations_mem {docs : List Document} {maxLen : Nat}
    {ranked : List RankedResult} :
    ∀ c ∈ buildCitations docs maxLen ranked,
      ∃ r ∈ ranked, c.passageId = r.cand.passage.id := by
  intro c hc
  unfold buildCitations at hc
  obtain ⟨r, hr, hsome⟩ := List.mem_filterMap.mp hc
  cases hf : docs.find? (fun d => d.id == r.cand.passage.docId) with
  | none =>
    rw [hf] at hsome
    cases hsome
  | some doc =>
    rw [hf] at hsome
    injection hsome with hsome
    refine ⟨r, hr, ?_⟩
    rw [← hsome]

theorem fallbackRanked_mem {cands : List Candidate} {topK : Nat} :
    ∀ r ∈ fallbackRanked cands topK, r.cand ∈ cands := by
  intro r hr
  have hp := attachRanks_mem _ hr
  obtain ⟨c, hc, hceq⟩ := List.mem_map.mp hp
  have h1 : c = r.cand := congrArg Prod.fst hceq
  exact h1 ▸ ((List.take_sublist _ _).subset hc)

theorem rankedOrFallback_mem {scorer : Candidate → Option ℚ} {cands : List Candidate}
    {topK : Nat} :
    ∀ r ∈ rankedOrFallback scorer cands topK, r.cand ∈ cands := by
  intro r hr
  unfold rankedOrFallback at hr
  cases hre : rerank scorer cands topK with
  | error e =>
    rw [hre] at hr
    exact fallbackRanked_mem r hr
  | ok rs =>
    rw [hre] at hr
    exact (rerank_ok_mem hre r hr).1

/-- **C1**: every successful `NarrationResponse` carries at least
`min_citations` citations, no two of which share a parent document id (with
deduplication enabled), and each citation derives from a retrieved candidate
(none is fabricated); when the deduplicated citation set falls below the
floor, `answer` fails with `InsufficientEvidenceError` and never reaches the
`Generating` stage. -/
theorem narration_citation_floor (collab : Collaborators) (cfg : SessionConfig)
    (docs : List Document) (scope : List Nat) (s : IndexState) (req : NarrationRequest)
    (hd : cfg.dedupByDocument = true) :
    (∀ resp, (answer collab cfg docs scope s req).1 = .ok resp →
      cfg.minCitations ≤ resp.citations.length ∧
      resp.citations.Pairwise (fun c1 c2 => c1.docId ≠ c2.docId) ∧
      (∀ c ∈ resp.citations, ∃ cands,
        retrieveS collab cfg.retrieval scope req.question s = .ok cands ∧
        ∃ cd ∈ cands, cd.passage.id = c.passageId)) ∧
    (∀ cands, retrieveS collab cfg.retrieval scope req.question s = .ok cands →
      (dedupByDoc (buildCitations docs cfg.maxSnippetLen
          (rankedOrFallback (fun c => collab.crossScore req.question c.passage.text)
            cands cfg.topK))).length < cfg.minCitations →
      (answer collab cfg docs scope s req).1 = .error .insufficientEvidence ∧
      Stage.generating ∉ (answer collab cfg docs scope s req).2) := by
  constructor
  · intro resp hresp
    unfold answer at hresp
    cases hre : retrieveS collab cfg.retrieval scope req.question s with
    | error e =>
      rw [hre] at hresp
      cases hresp
    | ok cands =>
      rw [hre] at hresp
      dsimp only at hresp
      cases has : assemble docs cfg.minCitations cfg.maxSnippetLen cfg.dedupByDocument
          (rankedOrFallback (fun c => collab.crossScore req.question c.passage.text)
            cands cfg.topK) with
      | error e =>
        rw [has] at hresp
        cases hresp
      | ok cites =>
        rw [has] at hresp
        injection hresp with hresp
        unfold assemble at has
        rw [hd] at has
        simp only [if_true] at has
        by_cases hlen : cfg.minCitations ≤ (dedupByDoc (buildCitations docs
            cfg.maxSnippetLen (rankedOrFallback
              (fun c => collab.crossScore req.question c.passage.text)
              cands cfg.topK))).length
        · rw [if_pos hlen] at has
          injection has with has
          refine ⟨?_, ?_, ?_⟩
          · rw [← hresp]
            show cfg.minCitations ≤ cites.length
            rw [← has]
            exact hlen
          · rw [← hresp]
            show cites.Pairwise _
            rw [← has]
            exact dedupByDoc_pairwise _
          · intro c hcmem
            rw [← hresp] at hcmem
            have hc2 : c ∈ cites := hcmem
            rw [← has] at hc2
            have hc3 := dedupByDoc_subset _ c hc2
            obtain ⟨r, hrr, hrid⟩ := buildCitations_mem c hc3
            exact ⟨cands, rfl, r.cand, rankedOrFallback_mem r hrr, hrid.symm⟩
        · rw [if_neg hlen] at has
          cases has
  · intro cands hre hlen
    unfold answer
    rw [hre]
    dsimp only
    have has : assemble docs cfg.minCitations cfg.maxSnippetLen cfg.dedupByDocument
        (rankedOrFallback (fun c => collab.crossScore req.question c.passage.text)
          cands cfg.topK) = .error .insufficientEvidence := by
      unfold assemble
      rw [hd]
      simp only [if_true]
      rw [if_neg (by omega)]
    rw [has]
    constructor
    · rfl
    · intro hmem
      simp at hmem

/-- Witness for C1: the concrete session answer succeeds with at least the
configured two citations, from two distinct documents. -/
theorem narration_citation_floor_witness :
    cfgSW.minCitations ≤ respW.citations.length ∧
    respW.citations.Pairwise (fun c1 c2 => c1.docId ≠ c2.docId) :=
  ⟨((narration_citation_floor collabW cfgSW docsW [1, 2, 3] sW reqW rfl).1 respW
      (by with_unfolding_all rfl)).1,
   ((narration_citation_floor collabW cfgSW docsW [1, 2, 3] sW reqW rfl).1 respW
      (by with_unfolding_all rfl)).2.1⟩

end VRTour
